import Mathlib

/-!
# Etchash core — shallow embedding and verification

This file embeds the core of `src/libetchash/internal.c` (the Etchash
proof-of-work engine) in Lean 4 and proves properties relating the code to
its specification.

Modelling conventions, fixed once for the whole file:

* A little-endian host is assumed (the C `fix_endian*` helpers are
  identities there, and the spec states all test vectors assume LE).
* Byte buffers are `List Nat` (one entry per byte).  A 64-byte `node`
  buffer is read through its 16 little-endian 32-bit words with
  `word32At` / `nodeWords`; a full word-store of a buffer is modelled by
  `wordsToBytes`, matching what the C code's typed unions do on a
  little-endian machine.
* The Keccak collaborator (`sha3.h`, not part of this repository's core
  sources) is abstract: every operation is parameterised by
  `f512 f256 : List Nat → List Nat`, the spec's two pure functions.
* `uint32` arithmetic is `Nat` with an explicit `% 2 ^ 32` where the C
  code can wrap (`fnv_hash`).  The C source also truncates the derived
  node counts (`cache_size / 64`, `full_size / 64`, `full_size / 128`)
  to `uint32`; for every cache/DAG size in the epoch tables (all far
  below 2^38 bytes) that cast is the identity and it is omitted here.
* Undefined behaviour that the guards of the C code do not exclude — the
  `% num_full_pages` with `num_full_pages = 0` in `etchash_hash`, the
  `n % (max_n / 100)` with `max_n / 100 = 0` in
  `etchash_compute_full_data`, and the null-pointer dereference in
  `etchash_light_new` — is surfaced explicitly (`CompRes.ub`, `none`,
  `NewRes.ub`).
* The progress percentage of the full-DAG builder,
  `ceil(progress * 100.0f)` with `progress` accumulating the
  single-precision quotient `1.0f / max_n` in double, is IEEE
  floating-point arithmetic and therefore outside the embedding: the
  percent value passed to the callback at loop index `n` is an opaque
  collaborator `pc : Nat → Nat`, with no bound assumed on its values
  (the exact real value never exceeds 100, but the rounded computation
  can reach 101 at valid DAG sizes).
* The epoch size tables (`data_sizes.h`) and the activation constant
  (`etchash.h`) are not under the embedded sources; they are modelled
  from the spec where needed.
-/

/-- `ETCHASH_EPOCH_LENGTH` (spec §4.10). -/
def ETCHASH_EPOCH_LENGTH : Nat := 30000

/-- `ETCHASH_NEW_EPOCH_LENGTH` (spec §4.10). -/
def ETCHASH_NEW_EPOCH_LENGTH : Nat := 60000

/-- Modelled from the spec: `ETCHASH_ACTIVATION_BLOCK` is defined in the
absent header `etchash.h`; the spec (§4.10) calls it the network specific
ECIP-1099 activation height, which is block 11700000 on the Ethereum
Classic mainnet. -/
def ETCHASH_ACTIVATION_BLOCK : Nat := 11700000

/-- `ETCHASH_CACHE_ROUNDS` (spec §4.10). -/
def ETCHASH_CACHE_ROUNDS : Nat := 3

/-- `ETCHASH_DATASET_PARENTS` (spec §4.10). -/
def ETCHASH_DATASET_PARENTS : Nat := 256

/-- `ETCHASH_ACCESSES` (spec §4.10). -/
def ETCHASH_ACCESSES : Nat := 64

/-- `MIX_WORDS` (spec §4.10). -/
def MIX_WORDS : Nat := 32

/-- `NODE_WORDS` (spec §4.10). -/
def NODE_WORDS : Nat := 16

/-- `FNV_PRIME = 0x01000193` (spec §4.10 and `fnv.h`). -/
def FNV_PRIME : Nat := 16777619

/-- `fnv_hash(x, y) = (x * FNV_PRIME) ^ y` on `uint32` (`fnv.h`, quoted in
spec §2 item 1). -/
def fnv_hash (x y : Nat) : Nat := x * FNV_PRIME % 2 ^ 32 ^^^ y

/-- The little-endian 32-bit word at word index `i` of a byte buffer. -/
def word32At (b : List Nat) (i : Nat) : Nat :=
  b.getD (4 * i) 0 + 2 ^ 8 * b.getD (4 * i + 1) 0 +
    2 ^ 16 * b.getD (4 * i + 2) 0 + 2 ^ 24 * b.getD (4 * i + 3) 0

/-- The 16-word little-endian view of a 64-byte node buffer. -/
def nodeWords (b : List Nat) : List Nat := (List.range NODE_WORDS).map (word32At b)

/-- The byte image of a sequence of 32-bit words stored little-endian:
what a C word-store loop leaves in the underlying byte buffer. -/
def wordsToBytes (ws : List Nat) : List Nat :=
  (ws.map (fun w => [w % 2 ^ 8, w / 2 ^ 8 % 2 ^ 8, w / 2 ^ 16 % 2 ^ 8, w / 2 ^ 24 % 2 ^ 8])).flatten

/-- The 8 little-endian bytes of a 64-bit nonce (`fix_endian64` is the
identity on a little-endian host). -/
def le64Bytes (n : Nat) : List Nat :=
  [n % 2 ^ 8, n / 2 ^ 8 % 2 ^ 8, n / 2 ^ 16 % 2 ^ 8, n / 2 ^ 24 % 2 ^ 8,
   n / 2 ^ 32 % 2 ^ 8, n / 2 ^ 40 % 2 ^ 8, n / 2 ^ 48 % 2 ^ 8, n / 2 ^ 56 % 2 ^ 8]

/-- `get_epoch_number` (internal.c lines 44-51): the epoch length switches
from 30000 to 60000 at the activation block. -/
def get_epoch_number (block_number : Nat) : Nat :=
  if ETCHASH_ACTIVATION_BLOCK ≤ block_number then block_number / ETCHASH_NEW_EPOCH_LENGTH
  else block_number / ETCHASH_EPOCH_LENGTH

/-- Modelled from the spec: `etchash_get_datasize` reads the compiled-in
2048-entry table `dag_sizes` from the absent header `data_sizes.h`; the
table is abstracted as a function of the epoch number.  The spec (§3)
guarantees every entry is a positive multiple of 128. -/
def etchash_get_datasize (dag_sizes : Nat → Nat) (block_number : Nat) : Nat :=
  dag_sizes (get_epoch_number block_number)

/-- Modelled from the spec: `etchash_get_cachesize` reads the compiled-in
table `cache_sizes` from the absent header `data_sizes.h`; abstracted as a
function of the epoch number (every entry a multiple of 64, spec §3). -/
def etchash_get_cachesize (cache_sizes : Nat → Nat) (block_number : Nat) : Nat :=
  cache_sizes (get_epoch_number block_number)

/-- A light context (`struct etchash_light`): the cache nodes, the cache
size in bytes and the creating block number. -/
structure LightCtx where
  cache : List (List Nat)
  cache_size : Nat
  block_number : Nat
deriving DecidableEq

/-- A full context (`struct etchash_full`): the memory-mapped DAG nodes
and the DAG size in bytes (`file_size`). -/
structure FullCtx where
  data : List (List Nat)
  file_size : Nat
deriving DecidableEq

/-- Outcome of a hashing call.  `.fail` is the C `return false` path
(`success = false`); `.ub` marks the modulus-by-zero the C guards do not
exclude (undefined behaviour, no defined return value); `.ok mix result`
is the successful `(mix_hash, result)` pair. -/
inductive CompRes where
  | ub : CompRes
  | fail : CompRes
  | ok : List Nat → List Nat → CompRes
deriving DecidableEq

/-- One XOR-combine of two 64-byte nodes as done word-wise by
`etchash_compute_cache_nodes`: the byte buffer left behind by the 16
word-stores. -/
def xorNode (a b : List Nat) : List Nat :=
  wordsToBytes (List.zipWith HXor.hXor (nodeWords a) (nodeWords b))

/-- The sequential keccak512 chain of phase 1 of the cache builder:
`nodes[0] = keccak512(seed)`, `nodes[i] = keccak512(nodes[i-1])`
(internal.c lines 81-85). -/
def cacheChain (f512 : List Nat → List Nat) : Nat → List Nat → List (List Nat)
  | 0, _ => []
  | k + 1, prev => f512 prev :: cacheChain f512 k (f512 prev)

/-- One index step of a SeqMemoHash round (internal.c lines 88-96):
`idx = nodes[i].words[0] mod N`,
`nodes[i] = keccak512(nodes[(N - 1 + i) mod N] XOR nodes[idx])`,
performed in place. -/
def roundStep (f512 : List Nat → List Nat) (num_nodes : Nat)
    (nodes : List (List Nat)) (i : Nat) : List (List Nat) :=
  let idx := word32At (nodes.getD i []) 0 % num_nodes
  nodes.set i (f512 (xorNode (nodes.getD ((num_nodes - 1 + i) % num_nodes) []) (nodes.getD idx [])))

/-- One full SeqMemoHash round: the in-place pass over all indices. -/
def cacheRound (f512 : List Nat → List Nat) (num_nodes : Nat)
    (nodes : List (List Nat)) : List (List Nat) :=
  List.foldl (roundStep f512 num_nodes) nodes (List.range num_nodes)

/-- `etchash_compute_cache_nodes` (internal.c lines 70-102): fails when
`cache_size` is not a multiple of 64; otherwise builds the keccak512
chain and applies `ETCHASH_CACHE_ROUNDS` SeqMemoHash rounds.  The final
`fix_endian_arr32` is the identity on a little-endian host. -/
def etchash_compute_cache_nodes (f512 : List Nat → List Nat)
    (cache_size : Nat) (seed : List Nat) : Option (List (List Nat)) :=
  if cache_size % 64 ≠ 0 then none
  else
    some (Nat.iterate (cacheRound f512 (cache_size / 64)) ETCHASH_CACHE_ROUNDS
      (cacheChain f512 (cache_size / 64) seed))

/-- `etchash_calculate_dag_item` (internal.c lines 104-154), scalar path:
copy the parent cache node, XOR the node index into word 0, keccak512,
then 256 rounds of FNV mixing with pseudo-randomly chosen cache parents,
and a final keccak512.  The byte buffer after the single word-0 store
keeps its remaining 60 original bytes. -/
def etchash_calculate_dag_item (f512 : List Nat → List Nat)
    (light : LightCtx) (node_index : Nat) : List Nat :=
  let num_parent_nodes := light.cache_size / 64
  let init0 := light.cache.getD (node_index % num_parent_nodes) []
  let w0 := word32At init0 0 ^^^ node_index
  let ret0 := f512 ([w0 % 2 ^ 8, w0 / 2 ^ 8 % 2 ^ 8, w0 / 2 ^ 16 % 2 ^ 8, w0 / 2 ^ 24 % 2 ^ 8] ++ init0.drop 4)
  let ws := List.foldl (fun ws i =>
      let parent_index := fnv_hash (node_index ^^^ i) (ws.getD (i % NODE_WORDS) 0) % num_parent_nodes
      List.zipWith fnv_hash ws (nodeWords (light.cache.getD parent_index [])))
    (nodeWords ret0) (List.range ETCHASH_DATASET_PARENTS)
  f512 (wordsToBytes ws)

/-- The loop of `etchash_compute_full_data` (internal.c lines 172-181)
over a list of node indices.  Returns the DAG nodes written, the list of
percent values passed to the callback (in order), and whether the
callback aborted the build.  The percent handed to the callback at loop
index `n` is `ceil(progress * 100.0f)` where `progress` has accumulated
the single-precision quotient `1.0f / max_n` in double — IEEE
floating-point arithmetic, which is outside this embedding — so it is
the opaque collaborator `pc` applied to `n`.  On abort the partially
filled region is undefined (spec §4.5), so no further nodes are
reported. -/
def buildLoop (f512 : List Nat → List Nat) (light : LightCtx)
    (pc : Nat → Nat) (cb : Option (Nat → Int)) (q : Nat) :
    List Nat → List (List Nat) × List Nat × Bool
  | [] => ([], [], false)
  | n :: rest =>
    match cb with
    | none =>
      let r := buildLoop f512 light pc none q rest
      (etchash_calculate_dag_item f512 light n :: r.1, r.2.1, r.2.2)
    | some f =>
      if n % q == 0 then
        if f (pc n) ≠ 0 then ([], [pc n], true)
        else
          let r := buildLoop f512 light pc (some f) q rest
          (etchash_calculate_dag_item f512 light n :: r.1, pc n :: r.2.1, r.2.2)
      else
        let r := buildLoop f512 light pc (some f) q rest
        (etchash_calculate_dag_item f512 light n :: r.1, r.2.1, r.2.2)

/-- `etchash_compute_full_data` (internal.c lines 156-183).  Fails on the
divisibility guard; with a non-null callback and `0 < max_n < 100` the
progress test `n % (max_n / 100)` divides by zero on the first iteration
(modelled as `none`); otherwise runs the build loop.  `pc` is the
floating-point percent pipeline, abstracted as an opaque collaborator
(see `buildLoop`).  The result carries the C return value
(`true` = completed), the DAG nodes and the trace of callback
invocations. -/
def etchash_compute_full_data (f512 : List Nat → List Nat) (pc : Nat → Nat)
    (light : LightCtx) (full_size : Nat) (cb : Option (Nat → Int)) :
    Option (Bool × List (List Nat) × List Nat) :=
  if full_size % 128 ≠ 0 ∨ full_size % 64 ≠ 0 then some (false, [], [])
  else
    match cb with
    | none =>
      let r := buildLoop f512 light pc none (full_size / 64 / 100)
        (List.range (full_size / 64))
      some (!r.2.2, r.1, r.2.1)
    | some f =>
      if full_size / 64 ≠ 0 ∧ full_size / 64 / 100 = 0 then none
      else
        let r := buildLoop f512 light pc (some f) (full_size / 64 / 100)
          (List.range (full_size / 64))
        some (!r.2.2, r.1, r.2.1)

/-- One DAG access of the hash inner loop (internal.c lines 216-250):
choose a page, then FNV-mix its two nodes into the 32-word mix. -/
def hashStep (dagNode : Nat → List Nat) (num_full_pages s0 : Nat)
    (mix : List Nat) (i : Nat) : List Nat :=
  let index := fnv_hash (s0 ^^^ i) (mix.getD (i % MIX_WORDS) 0) % num_full_pages
  List.zipWith fnv_hash (mix.take NODE_WORDS) (nodeWords (dagNode (2 * index))) ++
    List.zipWith fnv_hash (mix.drop NODE_WORDS) (nodeWords (dagNode (2 * index + 1)))

/-- The 4-to-1 FNV compression of the mix (internal.c lines 253-259). -/
def compressMix (mix : List Nat) : List Nat :=
  (List.range 8).map (fun w =>
    fnv_hash (fnv_hash (fnv_hash (mix.getD (4 * w) 0) (mix.getD (4 * w + 1) 0))
      (mix.getD (4 * w + 2) 0)) (mix.getD (4 * w + 3) 0))

/-- `etchash_hash` (internal.c lines 185-266): the two-mode hash
evaluator.  `full_nodes = some dag` is the full (DAG-backed) mode,
`none` synthesises DAG items from the light context.  Returns `.fail`
exactly on the `full_size % MIX_WORDS` guard; when the page count
`full_size / 128` is zero the page-index modulus of the first access is a
division by zero in C, surfaced as `.ub`. -/
def etchash_hash (f512 f256 : List Nat → List Nat)
    (full_nodes : Option (List (List Nat))) (light : LightCtx)
    (full_size : Nat) (header_hash : List Nat) (nonce : Nat) : CompRes :=
  if full_size % MIX_WORDS ≠ 0 then .fail
  else
    let smix0 := f512 (header_hash ++ le64Bytes nonce)
    let sw := nodeWords smix0
    let mix0 := (List.range MIX_WORDS).map (fun w => sw.getD (w % NODE_WORDS) 0)
    let num_full_pages := full_size / 128
    if num_full_pages = 0 then .ub
    else
      let dagNode : Nat → List Nat :=
        match full_nodes with
        | some dag => fun idx => dag.getD idx []
        | none => fun idx => etchash_calculate_dag_item f512 light idx
      let mixF := List.foldl (hashStep dagNode num_full_pages (sw.getD 0 0)) mix0
        (List.range ETCHASH_ACCESSES)
      let mix_hash := wordsToBytes (compressMix mixF)
      CompRes.ok mix_hash (f256 (smix0 ++ mix_hash))

/-- `etchash_quick_hash` (internal.c lines 268-282):
`keccak256(keccak512(header ++ nonce_le64) ++ mix_hash)`. -/
def etchash_quick_hash (f512 f256 : List Nat → List Nat)
    (header_hash : List Nat) (nonce : Nat) (mix_hash : List Nat) : List Nat :=
  f256 (f512 (header_hash ++ le64Bytes nonce) ++ mix_hash)

/-- `etchash_get_seedhash` (internal.c lines 284-300): derive the epoch
count per ECIP-1099 and iterate keccak256 on the zero 32-byte value.
The C loop counter is `uint32`; `epochs` stays far below `2^32` for every
block height with an epoch in the tables. -/
def etchash_get_seedhash (f256 : List Nat → List Nat) (block_number : Nat) : List Nat :=
  let epoch := get_epoch_number block_number
  let scaled := if ETCHASH_ACTIVATION_BLOCK ≤ block_number
    then epoch * ETCHASH_NEW_EPOCH_LENGTH + 1
    else epoch * ETCHASH_EPOCH_LENGTH + 1
  Nat.iterate f256 (scaled / ETCHASH_EPOCH_LENGTH) (List.replicate 32 0)

/-- `etchash_light_compute_internal` (internal.c lines 357-370).  The C
function only reads through the context pointer; the embedding threads
the context explicitly and returns it with the result. -/
def etchash_light_compute_internal (f512 f256 : List Nat → List Nat)
    (light : LightCtx) (full_size : Nat) (header_hash : List Nat)
    (nonce : Nat) : LightCtx × CompRes :=
  (light, etchash_hash f512 f256 none light full_size header_hash nonce)

/-- `etchash_light_compute` (internal.c lines 372-380): `full_size` comes
from the DAG size table at the context's block number. -/
def etchash_light_compute (dag_sizes : Nat → Nat) (f512 f256 : List Nat → List Nat)
    (light : LightCtx) (header_hash : List Nat) (nonce : Nat) : LightCtx × CompRes :=
  etchash_light_compute_internal f512 f256 light
    (etchash_get_datasize dag_sizes light.block_number) header_hash nonce

/-- `etchash_full_compute` (internal.c lines 498-516): the DAG-backed
mode; the light argument of `etchash_hash` is NULL and never read. -/
def etchash_full_compute (f512 f256 : List Nat → List Nat) (full : FullCtx)
    (header_hash : List Nat) (nonce : Nat) : FullCtx × CompRes :=
  (full, etchash_hash f512 f256 (some full.data) ⟨[], 0, 0⟩ full.file_size header_hash nonce)

/-- `etchash_light_new_internal` (internal.c lines 315-338).  The two
allocation outcomes are oracle booleans.  The second component counts the
heap blocks still live when the function returns: every failure path
frees what was acquired (the `goto` chain), a success owns the context
and its cache. -/
def etchash_light_new_internal (f512 : List Nat → List Nat)
    (calloc_ok malloc_ok : Bool) (cache_size : Nat) (seed : List Nat) :
    Option LightCtx × Nat :=
  if calloc_ok = false then (none, 0)
  else if malloc_ok = false then (none, 0)
  else
    match etchash_compute_cache_nodes f512 cache_size seed with
    | none => (none, 0)
    | some ns => (some { cache := ns, cache_size := cache_size, block_number := 0 }, 2)

/-- Outcome of `etchash_light_new`: `.null` would be a NULL return,
`.ub` marks the null-pointer dereference `ret->block_number = ...`
executed on the NULL result of `etchash_light_new_internal`. -/
inductive NewRes where
  | ub : NewRes
  | null : NewRes
  | ok : LightCtx → NewRes
deriving DecidableEq

/-- `etchash_light_new` (internal.c lines 340-347): derives seed and
cache size, calls the internal constructor, then unconditionally stores
the block number through the returned pointer — which is a null-pointer
dereference whenever the internal constructor failed. -/
def etchash_light_new (cache_sizes : Nat → Nat) (f512 f256 : List Nat → List Nat)
    (calloc_ok malloc_ok : Bool) (block_number : Nat) : NewRes :=
  let seedhash := etchash_get_seedhash f256 block_number
  match etchash_light_new_internal f512 calloc_ok malloc_ok
    (etchash_get_cachesize cache_sizes block_number) seedhash with
  | (none, _) => NewRes.ub
  | (some ctx, _) => NewRes.ok { ctx with block_number := block_number }

/-- Phase 1 of the cache builder as the spec's claim states it:
`nodes[i] = keccak512^(i+1)(seed)`. -/
def cacheSpecChain (f512 : List Nat → List Nat) (seed : List Nat) (num_nodes : Nat) :
    List (List Nat) :=
  (List.range num_nodes).map (fun i => Nat.iterate f512 (i + 1) seed)

/-- The cache contents as described by the specification of the claim:
the indexed keccak512 chain followed by `CACHE_ROUNDS = 3` in-place
SeqMemoHash passes (the passes are stated by the spec word for word as
the code performs them, so `cacheRound` is shared). -/
def etchash_cache_spec (f512 : List Nat → List Nat) (seed : List Nat)
    (num_nodes : Nat) : List (List Nat) :=
  Nat.iterate (cacheRound f512 num_nodes) ETCHASH_CACHE_ROUNDS
    (cacheSpecChain f512 seed num_nodes)

/-- A concrete stand-in for the abstract keccak512 collaborator, used by
witnesses: constant all-zero 64-byte output. -/
def z512 : List Nat → List Nat := fun _ => List.replicate 64 0

/-- A concrete stand-in for the abstract keccak256 collaborator, used by
witnesses: constant all-zero 32-byte output. -/
def z256 : List Nat → List Nat := fun _ => List.replicate 32 0

/-- A progress callback that never requests an abort. -/
def cbZero : Nat → Int := fun _ => 0

/-- The success flag of a full-DAG build result. -/
def fullDataSuccess (r : Option (Bool × List (List Nat) × List Nat)) : Bool :=
  (r.getD (false, [], [])).1

/-- The callback-invocation trace of a full-DAG build result. -/
def fullDataTrace (r : Option (Bool × List (List Nat) × List Nat)) : List Nat :=
  (r.getD (false, [], [])).2.2

/-- The length of the callback trace of a full-DAG build result, `none`
when the build was undefined behaviour. -/
def traceLen (r : Option (Bool × List (List Nat) × List Nat)) : Option Nat :=
  r.map (fun x => x.2.2.length)

/-! ## Helper lemmas -/

lemma getD_map_range {α : Type} (f : Nat → α) (m i : Nat) (h : i < m) (d : α) :
    ((List.range m).map f).getD i d = f i := by
  rw [List.getD_eq_getElem?_getD, List.getElem?_map, List.getElem?_range h]
  rfl

lemma etchash_hash_fail_of (f512 f256 : List Nat → List Nat)
    (fn : Option (List (List Nat))) (light : LightCtx) (fs : Nat)
    (hdr : List Nat) (nonce : Nat) (h : fs % 32 ≠ 0) :
    etchash_hash f512 f256 fn light fs hdr nonce = CompRes.fail := by
  simp only [etchash_hash, MIX_WORDS]
  rw [if_pos h]

lemma etchash_hash_ub_of (f512 f256 : List Nat → List Nat)
    (fn : Option (List (List Nat))) (light : LightCtx) (fs : Nat)
    (hdr : List Nat) (nonce : Nat) (h1 : fs % 32 = 0) (h2 : fs / 128 = 0) :
    etchash_hash f512 f256 fn light fs hdr nonce = CompRes.ub := by
  simp only [etchash_hash, MIX_WORDS]
  rw [if_neg (by omega), if_pos h2]

lemma etchash_hash_ok_of (f512 f256 : List Nat → List Nat)
    (fn : Option (List (List Nat))) (light : LightCtx) (fs : Nat)
    (hdr : List Nat) (nonce : Nat) (h1 : fs % 32 = 0) (h2 : fs / 128 ≠ 0) :
    ∃ m r, etchash_hash f512 f256 fn light fs hdr nonce = CompRes.ok m r := by
  simp only [etchash_hash, MIX_WORDS]
  rw [if_neg (by omega), if_neg h2]
  exact ⟨_, _, rfl⟩

lemma etchash_hash_ok_quick (f512 f256 : List Nat → List Nat)
    (fn : Option (List (List Nat))) (light : LightCtx) (fs : Nat)
    (hdr : List Nat) (nonce : Nat) (m r : List Nat)
    (h : etchash_hash f512 f256 fn light fs hdr nonce = CompRes.ok m r) :
    etchash_quick_hash f512 f256 hdr nonce m = r := by
  simp only [etchash_hash, MIX_WORDS] at h
  split at h
  · exact absurd h (by simp)
  · split at h
    · exact absurd h (by simp)
    · rw [CompRes.ok.injEq] at h
      obtain ⟨hm, hr⟩ := h
      subst hm
      subst hr
      rfl

/-! ## Claim theorems -/

/-- C2: whenever `etchash_light_compute` or `etchash_full_compute`
returns `(mix, result)` with success, `etchash_quick_hash` on the same
header hash, nonce and mix reproduces `result`. -/
theorem claim_C2_quick_hash_round_trip (dag_sizes : Nat → Nat)
    (f512 f256 : List Nat → List Nat) (light : LightCtx) (full : FullCtx)
    (hdr : List Nat) (nonce : Nat) (m r : List Nat) :
    ((etchash_light_compute dag_sizes f512 f256 light hdr nonce).2 = CompRes.ok m r →
      etchash_quick_hash f512 f256 hdr nonce m = r) ∧
    ((etchash_full_compute f512 f256 full hdr nonce).2 = CompRes.ok m r →
      etchash_quick_hash f512 f256 hdr nonce m = r) :=
  ⟨fun h => etchash_hash_ok_quick f512 f256 none light
      (etchash_get_datasize dag_sizes light.block_number) hdr nonce m r h,
   fun h => etchash_hash_ok_quick f512 f256 (some full.data) ⟨[], 0, 0⟩
      full.file_size hdr nonce m r h⟩

set_option maxRecDepth 100000 in
/-- Witness for C2 at a concrete input: a full compute on a two-node
all-zero DAG succeeds and the quick hash reproduces its result. -/
theorem claim_C2_witness :
    (etchash_full_compute z512 z256 ⟨[List.replicate 64 0, List.replicate 64 0], 128⟩
      (List.replicate 32 0) 0).2 = CompRes.ok (List.replicate 32 0) (List.replicate 32 0) ∧
    etchash_quick_hash z512 z256 (List.replicate 32 0) 0 (List.replicate 32 0) =
      List.replicate 32 0 :=
  ⟨by decide,
   (claim_C2_quick_hash_round_trip (fun _ => 0) z512 z256 ⟨[], 0, 0⟩
      ⟨[List.replicate 64 0, List.replicate 64 0], 128⟩ (List.replicate 32 0) 0
      (List.replicate 32 0) (List.replicate 32 0)).2 (by decide)⟩

/-- C3: `etchash_get_seedhash` iterates Keccak-256 on the 32-byte zero
value exactly `epochs` times with `epochs` as the claim's ECIP-1099
formula; the seed of block 0 is the zero value, the seed of block
`EPOCH_LENGTH` is one Keccak-256 of it, and any two blocks of the same
epoch (same epoch number on the same side of the activation height) share
the seed. -/
theorem claim_C3_seed_derivation (f256 : List Nat → List Nat) (b b1 b2 : Nat)
    (h1 : get_epoch_number b1 = get_epoch_number b2)
    (h2 : ETCHASH_ACTIVATION_BLOCK ≤ b1 ↔ ETCHASH_ACTIVATION_BLOCK ≤ b2) :
    (etchash_get_seedhash f256 b = Nat.iterate f256
      (if ETCHASH_ACTIVATION_BLOCK ≤ b
        then (get_epoch_number b * ETCHASH_NEW_EPOCH_LENGTH + 1) / ETCHASH_EPOCH_LENGTH
        else (get_epoch_number b * ETCHASH_EPOCH_LENGTH + 1) / ETCHASH_EPOCH_LENGTH)
      (List.replicate 32 0)) ∧
    etchash_get_seedhash f256 0 = List.replicate 32 0 ∧
    etchash_get_seedhash f256 ETCHASH_EPOCH_LENGTH = f256 (List.replicate 32 0) ∧
    etchash_get_seedhash f256 b1 = etchash_get_seedhash f256 b2 := by
  refine ⟨?_, ?_, ?_, ?_⟩
  · by_cases hb : ETCHASH_ACTIVATION_BLOCK ≤ b <;> simp [etchash_get_seedhash, hb]
  · have hb : ¬ ETCHASH_ACTIVATION_BLOCK ≤ 0 := by decide
    simp [etchash_get_seedhash, get_epoch_number, hb]
    norm_num [ETCHASH_EPOCH_LENGTH]
  · have hb : ¬ ETCHASH_ACTIVATION_BLOCK ≤ ETCHASH_EPOCH_LENGTH := by decide
    simp [etchash_get_seedhash, get_epoch_number, hb]
    norm_num [ETCHASH_EPOCH_LENGTH]
  · by_cases hb : ETCHASH_ACTIVATION_BLOCK ≤ b1
    · have hb2 : ETCHASH_ACTIVATION_BLOCK ≤ b2 := h2.mp hb
      simp [etchash_get_seedhash, hb, hb2, h1]
    · have hb2 : ¬ ETCHASH_ACTIVATION_BLOCK ≤ b2 := fun h => hb (h2.mpr h)
      simp [etchash_get_seedhash, hb, hb2, h1]

/-- Witness for C3 at concrete inputs: blocks 5 and 7 lie in epoch 0
before the activation height and get equal seeds. -/
theorem claim_C3_witness :
    get_epoch_number 5 = get_epoch_number 7 ∧
    (ETCHASH_ACTIVATION_BLOCK ≤ 5 ↔ ETCHASH_ACTIVATION_BLOCK ≤ 7) ∧
    etchash_get_seedhash (fun l => 0 :: l) 5 = etchash_get_seedhash (fun l => 0 :: l) 7 :=
  ⟨by decide, by constructor <;> (intro h; exact absurd h (by decide)),
   (claim_C3_seed_derivation (fun l => 0 :: l) 0 5 7 (by decide)
     (by constructor <;> (intro h; exact absurd h (by decide)))).2.2.2⟩

lemma cacheChain_eq_spec (f512 : List Nat → List Nat) :
    ∀ (k : Nat) (x : List Nat),
      cacheChain f512 k x = (List.range k).map (fun i => Nat.iterate f512 (i + 1) x) := by
  intro k
  induction k with
  | zero => intro x; rfl
  | succ n ih =>
    intro x
    show f512 x :: cacheChain f512 n (f512 x) = _
    rw [ih (f512 x), List.range_succ_eq_map, List.map_cons, List.map_map]
    refine congrArg₂ List.cons (by simp) ?_
    refine congrArg (fun g => List.map g (List.range n)) ?_
    funext i
    simp [Function.iterate_succ_apply]

/-- C4: for every nonzero multiple of 64 as cache size,
`etchash_compute_cache_nodes` succeeds and produces exactly the nodes of
the claim's recurrence — the indexed keccak512 chain followed by three
in-place SeqMemoHash rounds — and it fails for any other cache size. -/
theorem claim_C4_cache_builder (f512 : List Nat → List Nat) (seed : List Nat)
    (cache_size : Nat) :
    (cache_size % 64 = 0 → cache_size ≠ 0 →
      etchash_compute_cache_nodes f512 cache_size seed =
        some (etchash_cache_spec f512 seed (cache_size / 64))) ∧
    (cache_size % 64 ≠ 0 → etchash_compute_cache_nodes f512 cache_size seed = none) := by
  constructor
  · intro h _
    unfold etchash_compute_cache_nodes etchash_cache_spec cacheSpecChain
    rw [if_neg (by omega), cacheChain_eq_spec]
  · intro h
    unfold etchash_compute_cache_nodes
    rw [if_pos h]

/-- Witness for C4 at concrete inputs: cache size 128 (two nodes) builds
the spec cache; cache size 65 is rejected. -/
theorem claim_C4_witness :
    etchash_compute_cache_nodes z512 128 (List.replicate 32 0) =
      some (etchash_cache_spec z512 (List.replicate 32 0) (128 / 64)) ∧
    etchash_compute_cache_nodes z512 65 (List.replicate 32 0) = none :=
  ⟨(claim_C4_cache_builder z512 (List.replicate 32 0) 128).1 (by decide) (by decide),
   (claim_C4_cache_builder z512 (List.replicate 32 0) 65).2 (by decide)⟩

/-- Counterexample for C5: `full_size = 32` is a multiple of
`MIX_WORDS = 32`, yet `etchash_hash` does not return `success = true`
there — the page count is zero and the first page-index modulus divides
by zero (undefined behaviour in C, `.ub` here). -/
theorem claim_C5_counterexample :
    (32 : Nat) % 32 = 0 ∧
    etchash_hash z512 z256 none ⟨[], 0, 0⟩ 32 [] 0 = CompRes.ub := by
  decide

/-- C5 (amended): `etchash_hash` returns `success = false` exactly when
`full_size % 32 ≠ 0`; for a multiple of 32 below 128 the evaluation hits
a modulus by zero instead of returning, and for a multiple of 32 that is
at least 128 it proceeds and returns `success = true`. -/
theorem claim_C5_amended (f512 f256 : List Nat → List Nat)
    (fn : Option (List (List Nat))) (light : LightCtx) (fs : Nat)
    (hdr : List Nat) (nonce : Nat) :
    (etchash_hash f512 f256 fn light fs hdr nonce = CompRes.fail ↔ fs % 32 ≠ 0) ∧
    (fs % 32 = 0 → fs < 128 →
      etchash_hash f512 f256 fn light fs hdr nonce = CompRes.ub) ∧
    (fs % 32 = 0 → 128 ≤ fs →
      ∃ m r, etchash_hash f512 f256 fn light fs hdr nonce = CompRes.ok m r) := by
  refine ⟨⟨fun h => ?_, fun h => etchash_hash_fail_of _ _ _ _ _ _ _ h⟩, ?_, ?_⟩
  · by_contra hmod
    by_cases hp : fs / 128 = 0
    · rw [etchash_hash_ub_of f512 f256 fn light fs hdr nonce hmod hp] at h
      exact absurd h (by simp)
    · obtain ⟨m, r, hok⟩ := etchash_hash_ok_of f512 f256 fn light fs hdr nonce hmod hp
      rw [hok] at h
      exact absurd h (by simp)
  · intro h1 h2
    exact etchash_hash_ub_of f512 f256 fn light fs hdr nonce h1 (by omega)
  · intro h1 h2
    exact etchash_hash_ok_of f512 f256 fn light fs hdr nonce h1 (by omega)

/-- Witness for C5 (amended) at a concrete input: `full_size = 64` is a
multiple of 32 below 128 and the evaluation is the division-by-zero case. -/
theorem claim_C5_witness :
    (64 : Nat) % 32 = 0 ∧ (64 : Nat) < 128 ∧
    etchash_hash z512 z256 none ⟨[], 0, 0⟩ 64 [] 0 = CompRes.ub :=
  ⟨by decide, by decide,
   (claim_C5_amended z512 z256 none ⟨[], 0, 0⟩ 64 [] 0).2.1 (by decide) (by decide)⟩

/-- C7: `etchash_light_new_internal` behaves as the claim states — every
failure path (context allocation, cache allocation, invalid cache size)
returns null with no live heap block left behind, so no partially
constructed context escapes.  But `etchash_light_new` itself then
executes `ret->block_number = block_number` without a null check, so on
an allocation failure it dereferences the null pointer (undefined
behaviour) instead of returning null: the code contradicts the spec's
stated failure mode. -/
theorem claim_C7_light_new_failure_modes (f512 f256 : List Nat → List Nat)
    (cache_sizes : Nat → Nat) (cs : Nat) (seed : List Nat) (b : Nat)
    (h : cs % 64 ≠ 0) :
    etchash_light_new_internal f512 false true cs seed = (none, 0) ∧
    etchash_light_new_internal f512 true false cs seed = (none, 0) ∧
    etchash_light_new_internal f512 true true cs seed = (none, 0) ∧
    etchash_light_new cache_sizes f512 f256 false true b = NewRes.ub := by
  refine ⟨rfl, rfl, ?_, rfl⟩
  unfold etchash_light_new_internal etchash_compute_cache_nodes
  rw [if_neg (by simp), if_neg (by simp), if_pos h]

/-- Witness for C7 at concrete inputs: cache size 65 is rejected with
everything freed, and a failed context allocation at block 0 makes
`etchash_light_new` hit the null dereference. -/
theorem claim_C7_witness :
    (65 : Nat) % 64 ≠ 0 ∧
    etchash_light_new_internal z512 true true 65 [] = (none, 0) ∧
    etchash_light_new (fun _ => 0) z512 z256 false true 0 = NewRes.ub :=
  ⟨by decide,
   (claim_C7_light_new_failure_modes z512 z256 (fun _ => 0) 65 [] 0 (by decide)).2.2.1,
   (claim_C7_light_new_failure_modes z512 z256 (fun _ => 0) 65 [] 0 (by decide)).2.2.2⟩

/-- C8: `etchash_light_compute` and `etchash_full_compute` are read-only
against their context: the returned context is the argument unchanged —
in particular the cache nodes, the DAG nodes and the `cache_size`,
`block_number` and `file_size` fields are bit-identical — for every
header hash and nonce.  (The C functions never store through the context
pointer; the embedding threads the context explicitly to record this.) -/
theorem claim_C8_read_only_compute (dag_sizes : Nat → Nat)
    (f512 f256 : List Nat → List Nat) (light : LightCtx) (full : FullCtx)
    (hdr : List Nat) (nonce : Nat) :
    (etchash_light_compute dag_sizes f512 f256 light hdr nonce).1 = light ∧
    (etchash_light_compute dag_sizes f512 f256 light hdr nonce).1.cache = light.cache ∧
    (etchash_light_compute dag_sizes f512 f256 light hdr nonce).1.cache_size = light.cache_size ∧
    (etchash_light_compute dag_sizes f512 f256 light hdr nonce).1.block_number = light.block_number ∧
    (etchash_full_compute f512 f256 full hdr nonce).1 = full ∧
    (etchash_full_compute f512 f256 full hdr nonce).1.data = full.data ∧
    (etchash_full_compute f512 f256 full hdr nonce).1.file_size = full.file_size :=
  ⟨rfl, rfl, rfl, rfl, rfl, rfl, rfl⟩

/-- C9: the `full_size % 32` guard of `etchash_hash` admits the sizes 0,
32, 64 and 96, all with page count `full_size / 128 = 0`, where the
page-index computation divides by zero; a successful return therefore
additionally requires `full_size ≥ 128` (on top of `32 ∣ full_size`). -/
theorem claim_C9_implicit_full_size_bound (f512 f256 : List Nat → List Nat)
    (fn : Option (List (List Nat))) (light : LightCtx) (fs : Nat)
    (hdr : List Nat) (nonce : Nat) (m r : List Nat) :
    ((fs = 0 ∨ fs = 32 ∨ fs = 64 ∨ fs = 96) →
      fs % 32 = 0 ∧ fs / 128 = 0 ∧
      etchash_hash f512 f256 fn light fs hdr nonce = CompRes.ub) ∧
    (etchash_hash f512 f256 fn light fs hdr nonce = CompRes.ok m r →
      32 ∣ fs ∧ 128 ≤ fs) := by
  constructor
  · intro h
    have h32 : fs % 32 = 0 := by rcases h with h | h | h | h <;> omega
    have h128 : fs / 128 = 0 := by rcases h with h | h | h | h <;> omega
    exact ⟨h32, h128, etchash_hash_ub_of f512 f256 fn light fs hdr nonce h32 h128⟩
  · intro h
    by_cases h32 : fs % 32 = 0
    · by_cases hp : fs / 128 = 0
      · rw [etchash_hash_ub_of f512 f256 fn light fs hdr nonce h32 hp] at h
        exact absurd h (by simp)
      · exact ⟨Nat.dvd_of_mod_eq_zero h32, by omega⟩
    · rw [etchash_hash_fail_of f512 f256 fn light fs hdr nonce h32] at h
      exact absurd h (by simp)

set_option maxRecDepth 100000 in
/-- Witness for C9 at concrete inputs: `full_size = 32` passes the guard
and divides by zero; a successful full compute at `full_size = 128`
confirms the derived lower bound. -/
theorem claim_C9_witness :
    etchash_hash z512 z256 none ⟨[], 0, 0⟩ 32 [] 0 = CompRes.ub ∧
    (32 : Nat) ∣ 128 ∧ (128 : Nat) ≤ 128 :=
  ⟨(claim_C9_implicit_full_size_bound z512 z256 none ⟨[], 0, 0⟩ 32 [] 0 [] []).1
      (by decide) |>.2.2,
   (claim_C9_implicit_full_size_bound z512 z256
      (some [List.replicate 64 0, List.replicate 64 0]) ⟨[], 0, 0⟩ 128
      (List.replicate 32 0) 0 (List.replicate 32 0) (List.replicate 32 0)).2
      (by decide)⟩

/-- Counterexample for C10: `full_size = 0` passes the divisibility guard
and satisfies `full_size / 64 < 100`, yet with a non-null callback the
build completes without any division by zero — the loop has no first
iteration. -/
theorem claim_C10_counterexample :
    (0 : Nat) % 128 = 0 ∧ (0 : Nat) / 64 < 100 ∧
    etchash_compute_full_data z512 (fun _ => 0) ⟨[], 0, 0⟩ 0 (some (fun _ => (1 : Int))) =
      some (true, [], []) := by
  decide

/-- C10 (amended): when `etchash_compute_full_data` is called with a
non-null callback and a `full_size` that passes its divisibility guard
with `1 ≤ full_size / 64 < 100`, the progress test `n % (max_n / 100)`
divides by zero on the first iteration (undefined behaviour, `none`
here); the guard alone does not make the builder safe to run with a
callback. -/
theorem claim_C10_amended (f512 : List Nat → List Nat) (pc : Nat → Nat)
    (light : LightCtx) (fs : Nat) (f : Nat → Int) (h128 : fs % 128 = 0)
    (h1 : 1 ≤ fs / 64) (h2 : fs / 64 < 100) :
    etchash_compute_full_data f512 pc light fs (some f) = none := by
  unfold etchash_compute_full_data
  rw [if_neg (by omega)]
  exact if_pos ⟨by omega, Nat.div_eq_of_lt h2⟩

/-- Witness for C10 (amended) at a concrete input: `full_size = 128`
(two nodes) with a callback divides by zero. -/
theorem claim_C10_witness :
    (128 : Nat) % 128 = 0 ∧ 1 ≤ (128 : Nat) / 64 ∧ (128 : Nat) / 64 < 100 ∧
    etchash_compute_full_data z512 (fun _ => 0) ⟨[], 0, 0⟩ 128 (some cbZero) = none :=
  ⟨by decide, by decide, by decide,
   claim_C10_amended z512 (fun _ => 0) ⟨[], 0, 0⟩ 128 cbZero (by decide) (by decide)
     (by decide)⟩

lemma buildLoop_none (f512 : List Nat → List Nat) (light : LightCtx)
    (pc : Nat → Nat) (q : Nat) :
    ∀ l : List Nat, buildLoop f512 light pc none q l =
      (l.map (etchash_calculate_dag_item f512 light), [], false) := by
  intro l
  induction l with
  | nil => rfl
  | cons n rest ih => simp [buildLoop, ih]

lemma compute_full_data_no_cb (f512 : List Nat → List Nat) (pc : Nat → Nat)
    (light : LightCtx) (fs : Nat) (h128 : fs % 128 = 0) :
    etchash_compute_full_data f512 pc light fs none =
      some (true, (List.range (fs / 64)).map (etchash_calculate_dag_item f512 light), []) := by
  unfold etchash_compute_full_data
  rw [if_neg (by omega)]
  simp [buildLoop_none]

lemma hashStep_congr (d1 d2 : Nat → List Nat) (pages s0 : Nat) (hp : 0 < pages)
    (h : ∀ j, j < 2 * pages → d1 j = d2 j) :
    hashStep d1 pages s0 = hashStep d2 pages s0 := by
  funext mix i
  simp only [hashStep]
  have hidx := Nat.mod_lt (fnv_hash (s0 ^^^ i) (mix.getD (i % MIX_WORDS) 0)) hp
  rw [h (2 * (fnv_hash (s0 ^^^ i) (mix.getD (i % MIX_WORDS) 0) % pages)) (by omega),
      h (2 * (fnv_hash (s0 ^^^ i) (mix.getD (i % MIX_WORDS) 0) % pages) + 1) (by omega)]

lemma etchash_hash_full_eq_light (f512 f256 : List Nat → List Nat)
    (light lightF : LightCtx) (fs : Nat) (hdr : List Nat) (nonce : Nat)
    (dag : List (List Nat))
    (hdag : ∀ i, i < fs / 64 → dag.getD i [] = etchash_calculate_dag_item f512 light i)
    (h128 : fs % 128 = 0) (hpos : 0 < fs) :
    etchash_hash f512 f256 (some dag) lightF fs hdr nonce =
      etchash_hash f512 f256 none light fs hdr nonce := by
  have hp : 0 < fs / 128 := by omega
  have hc1 : ¬ fs % 32 ≠ 0 := by omega
  have hc2 : ¬ (fs / 128 = 0) := by omega
  simp only [etchash_hash, MIX_WORDS]
  rw [if_neg hc1, if_neg hc1, if_neg hc2, if_neg hc2]
  have heq := hashStep_congr (fun idx => dag.getD idx [])
    (fun idx => etchash_calculate_dag_item f512 light idx) (fs / 128)
    ((nodeWords (f512 (hdr ++ le64Bytes nonce))).getD 0 0) hp
    (fun j hj => hdag j (by omega))
  rw [heq]

set_option maxRecDepth 100000 in
/-- C1: for a DAG-size that is a positive multiple of 128 (which the spec
guarantees for every epoch in the tables), a light compute and a full
compute whose DAG was produced by `etchash_compute_full_data` from the
same light context and the same `full_size` return bit-identical mix
hash and result, both successfully. -/
theorem claim_C1_light_full_equivalence (dag_sizes : Nat → Nat)
    (f512 f256 : List Nat → List Nat) (pc : Nat → Nat)
    (cache : List (List Nat)) (cs bn : Nat)
    (hdr : List Nat) (nonce : Nat) (dag : List (List Nat)) (tr : List Nat)
    (h128 : etchash_get_datasize dag_sizes bn % 128 = 0)
    (hpos : 0 < etchash_get_datasize dag_sizes bn)
    (hbuild : etchash_compute_full_data f512 pc ⟨cache, cs, bn⟩
      (etchash_get_datasize dag_sizes bn) none = some (true, dag, tr)) :
    (etchash_light_compute dag_sizes f512 f256 ⟨cache, cs, bn⟩ hdr nonce).2 =
      (etchash_full_compute f512 f256 ⟨dag, etchash_get_datasize dag_sizes bn⟩ hdr nonce).2 ∧
    ∃ m r, (etchash_light_compute dag_sizes f512 f256 ⟨cache, cs, bn⟩ hdr nonce).2 =
      CompRes.ok m r := by
  have hdageq : dag = (List.range (etchash_get_datasize dag_sizes bn / 64)).map
      (etchash_calculate_dag_item f512 ⟨cache, cs, bn⟩) := by
    rw [compute_full_data_no_cb f512 pc ⟨cache, cs, bn⟩ _ h128] at hbuild
    have h' := Option.some.inj hbuild
    exact (Prod.mk.injEq _ _ _ _ |>.mp (Prod.mk.injEq _ _ _ _ |>.mp h').2).1.symm
  have hdag : ∀ i, i < etchash_get_datasize dag_sizes bn / 64 →
      dag.getD i [] = etchash_calculate_dag_item f512 ⟨cache, cs, bn⟩ i := by
    intro i hi
    rw [hdageq]
    exact getD_map_range _ _ _ hi []
  constructor
  · exact (etchash_hash_full_eq_light f512 f256 ⟨cache, cs, bn⟩ ⟨[], 0, 0⟩
      (etchash_get_datasize dag_sizes bn) hdr nonce dag hdag h128 hpos).symm
  · exact etchash_hash_ok_of f512 f256 none ⟨cache, cs, bn⟩
      (etchash_get_datasize dag_sizes bn) hdr nonce (by omega) (by omega)

set_option maxRecDepth 1000000 in
/-- Witness for C1 at a concrete input: with a one-node all-zero cache
and table size 128, the built DAG is two all-zero nodes and light and
full compute agree. -/
theorem claim_C1_witness :
    etchash_get_datasize (fun _ => 128) 0 % 128 = 0 ∧
    0 < etchash_get_datasize (fun _ => 128) 0 ∧
    etchash_compute_full_data z512 (fun _ => 0) ⟨[List.replicate 64 0], 64, 0⟩
      (etchash_get_datasize (fun _ => 128) 0) none =
      some (true, [List.replicate 64 0, List.replicate 64 0], []) ∧
    (etchash_light_compute (fun _ => 128) z512 z256 ⟨[List.replicate 64 0], 64, 0⟩
      (List.replicate 32 0) 0).2 =
    (etchash_full_compute z512 z256 ⟨[List.replicate 64 0, List.replicate 64 0], 128⟩
      (List.replicate 32 0) 0).2 :=
  ⟨by decide, by decide, by decide,
   (claim_C1_light_full_equivalence (fun _ => 128) z512 z256 (fun _ => 0)
      [List.replicate 64 0] 64 0
      (List.replicate 32 0) 0 [List.replicate 64 0, List.replicate 64 0] []
      (by decide) (by decide) (by decide)).1⟩

lemma getLastD_cons_ne_nil (a d : Nat) (t : List Nat) (h : t ≠ []) :
    (a :: t).getLastD d = t.getLastD d := by
  cases t with
  | nil => exact absurd rfl h
  | cons x ts => rw [List.getLastD_cons, List.getLastD_cons, List.getLastD_cons]

lemma dropLast_cons_ne_nil (a : Nat) (t : List Nat) (h : t ≠ []) :
    (a :: t).dropLast = a :: t.dropLast := by
  cases t with
  | nil => exact absurd rfl h
  | cons x ts => rfl

lemma getLastD_mem : ∀ (l : List Nat) (d : Nat), l ≠ [] → l.getLastD d ∈ l := by
  intro l
  induction l with
  | nil => intro d h; exact absurd rfl h
  | cons a t ih =>
    intro d _
    by_cases ht : t = []
    · subst ht; exact List.mem_singleton.mpr rfl
    · rw [List.getLastD_cons]
      exact List.mem_cons_of_mem a (ih a ht)

lemma buildLoop_trace_take (f512 : List Nat → List Nat) (light : LightCtx)
    (pc : Nat → Nat) (q : Nat) (f : Nat → Int) :
    ∀ l : List Nat, ∃ k, (buildLoop f512 light pc (some f) q l).2.1 =
      ((l.filter (fun n => n % q == 0)).map pc).take k := by
  intro l
  induction l with
  | nil => exact ⟨0, rfl⟩
  | cons n rest ih =>
    obtain ⟨k, hk⟩ := ih
    by_cases hnq : (n % q == 0) = true
    · by_cases hf : f (pc n) = 0
      · refine ⟨k + 1, ?_⟩
        simp only [buildLoop, if_pos hnq, hf, ne_eq, not_true_eq_false, if_false,
          List.filter_cons, hnq, if_true, List.map_cons, List.take_succ_cons]
        exact congrArg (List.cons (pc n)) hk
      · refine ⟨1, ?_⟩
        simp only [buildLoop, if_pos hnq, if_pos hf, List.filter_cons, hnq, if_true,
          List.map_cons, List.take_succ_cons, List.take_zero]
    · refine ⟨k, ?_⟩
      simp only [buildLoop, hnq, if_false, List.filter_cons]
      exact hk

lemma buildLoop_no_abort (f512 : List Nat → List Nat) (light : LightCtx)
    (pc : Nat → Nat) (q : Nat) (f : Nat → Int) :
    ∀ l : List Nat, (buildLoop f512 light pc (some f) q l).2.2 = false →
      (buildLoop f512 light pc (some f) q l).2.1 =
        (l.filter (fun n => n % q == 0)).map pc ∧
      ∀ p ∈ (buildLoop f512 light pc (some f) q l).2.1, f p = 0 := by
  intro l
  induction l with
  | nil => intro _; exact ⟨rfl, by intro p hp; exact absurd hp (by simp [buildLoop])⟩
  | cons n rest ih =>
    intro hab
    by_cases hnq : (n % q == 0) = true
    · by_cases hf : f (pc n) = 0
      · have hab' : (buildLoop f512 light pc (some f) q rest).2.2 = false := by
          simpa [buildLoop, hnq, hf] using hab
        obtain ⟨h1, h2⟩ := ih hab'
        constructor
        · simp only [buildLoop, if_pos hnq, hf, ne_eq, not_true_eq_false, if_false,
            List.filter_cons, hnq, if_true, List.map_cons]
          exact congrArg (List.cons (pc n)) h1
        · intro p hp
          simp only [buildLoop, if_pos hnq, hf, ne_eq, not_true_eq_false, if_false,
            List.mem_cons] at hp
          rcases hp with hp | hp
          · rw [hp]; exact hf
          · exact h2 p hp
      · exfalso
        simp [buildLoop, hnq, hf] at hab
    · have hab' : (buildLoop f512 light pc (some f) q rest).2.2 = false := by
        simpa [buildLoop, hnq] using hab
      obtain ⟨h1, h2⟩ := ih hab'
      constructor
      · simp only [buildLoop, hnq, if_false, List.filter_cons]
        exact h1
      · intro p hp
        simp only [buildLoop, hnq, if_false] at hp
        exact h2 p hp

lemma buildLoop_abort (f512 : List Nat → List Nat) (light : LightCtx)
    (pc : Nat → Nat) (q : Nat) (f : Nat → Int) :
    ∀ l : List Nat, (buildLoop f512 light pc (some f) q l).2.2 = true →
      (buildLoop f512 light pc (some f) q l).2.1 ≠ [] ∧
      f ((buildLoop f512 light pc (some f) q l).2.1.getLastD 0) ≠ 0 ∧
      ∀ p ∈ (buildLoop f512 light pc (some f) q l).2.1.dropLast, f p = 0 := by
  intro l
  induction l with
  | nil => intro hab; exact absurd hab (by simp [buildLoop])
  | cons n rest ih =>
    intro hab
    by_cases hnq : (n % q == 0) = true
    · by_cases hf : f (pc n) = 0
      · have hab' : (buildLoop f512 light pc (some f) q rest).2.2 = true := by
          simpa [buildLoop, hnq, hf] using hab
        obtain ⟨h1, h2, h3⟩ := ih hab'
        have htr : (buildLoop f512 light pc (some f) q (n :: rest)).2.1 =
            pc n :: (buildLoop f512 light pc (some f) q rest).2.1 := by
          simp [buildLoop, hnq, hf]
        refine ⟨by rw [htr]; exact List.cons_ne_nil _ _, ?_, ?_⟩
        · rw [htr, getLastD_cons_ne_nil _ _ _ h1]
          exact h2
        · intro p hp
          rw [htr, dropLast_cons_ne_nil _ _ h1, List.mem_cons] at hp
          rcases hp with hp | hp
          · rw [hp]; exact hf
          · exact h3 p hp
      · have htr : (buildLoop f512 light pc (some f) q (n :: rest)).2.1 =
            [pc n] := by
          simp [buildLoop, hnq, hf]
        refine ⟨by rw [htr]; exact List.cons_ne_nil _ _, ?_, ?_⟩
        · rw [htr]
          exact hf
        · intro p hp
          rw [htr] at hp
          exact absurd hp (by simp)
    · have hab' : (buildLoop f512 light pc (some f) q rest).2.2 = true := by
        simpa [buildLoop, hnq] using hab
      obtain ⟨h1, h2, h3⟩ := ih hab'
      have htr : (buildLoop f512 light pc (some f) q (n :: rest)).2.1 =
          (buildLoop f512 light pc (some f) q rest).2.1 := by
        simp [buildLoop, hnq]
      rw [htr]
      exact ⟨h1, h2, h3⟩

lemma filter_mod_zero_length (q : Nat) (hq : 0 < q) :
    ∀ m : Nat, ((List.range m).filter (fun n => n % q == 0)).length = (m + q - 1) / q := by
  intro m
  induction m with
  | zero => simp [Nat.div_eq_of_lt (by omega : q - 1 < q)]
  | succ k ih =>
    rw [List.range_succ, List.filter_append, List.length_append, ih]
    have hrw : k + 1 + q - 1 = k + q := by omega
    rw [hrw, Nat.add_div_right k hq]
    by_cases hk : k % q = 0
    · have hfil : ((List.filter (fun n => n % q == 0) [k])).length = 1 := by
        simp [List.filter, hk]
      have hdiv : (k + q - 1) / q = k / q := by
        obtain ⟨t, ht⟩ := Nat.dvd_of_mod_eq_zero hk
        have h1 : k + q - 1 = q * t + (q - 1) := by omega
        rw [h1, Nat.mul_add_div hq, Nat.div_eq_of_lt (by omega : q - 1 < q), ht,
          Nat.mul_div_cancel_left t hq]
        omega
      rw [hfil, hdiv]
    · have hb : (k % q == 0) = false := by simpa using hk
      have hfil : ((List.filter (fun n => n % q == 0) [k])).length = 0 := by
        simp [List.filter, hb]
      have hdiv : (k + q - 1) / q = k / q + 1 := by
        have hdm := Nat.div_add_mod k q
        have hmlt := Nat.mod_lt k hq
        have hexp : q * (k / q + 1) = q * (k / q) + q := by ring
        have h1 : k + q - 1 = q * (k / q + 1) + (k % q - 1) := by omega
        rw [h1, Nat.mul_add_div hq, Nat.div_eq_of_lt (by omega : k % q - 1 < q)]
      rw [hfil, hdiv]

lemma progressList_ne_nil (pc : Nat → Nat) (q m : Nat) (hm : 0 < m) :
    ((List.range m).filter (fun n => n % q == 0)).map pc ≠ [] := by
  have h0 : (0 : Nat) ∈ (List.range m).filter (fun n => n % q == 0) :=
    List.mem_filter.mpr ⟨List.mem_range.mpr hm, by simp⟩
  exact List.ne_nil_of_mem (List.mem_map_of_mem pc h0)

lemma progressList_length_le (pc : Nat → Nat) (q m : Nat) (hq : 0 < q)
    (h : m ≤ 100 * q + 99) :
    (((List.range m).filter (fun n => n % q == 0)).map pc).length ≤ 199 := by
  rw [List.length_map, filter_mod_zero_length q hq m]
  have h1 : m + q - 1 ≤ q * 101 + 98 := by omega
  calc (m + q - 1) / q ≤ (q * 101 + 98) / q := Nat.div_le_div_right h1
    _ = 101 + 98 / q := Nat.mul_add_div hq 101 98
    _ ≤ 199 := by have := Nat.div_le_self 98 q; omega

lemma compute_full_data_cb (f512 : List Nat → List Nat) (pc : Nat → Nat)
    (light : LightCtx) (fs : Nat) (f : Nat → Int)
    (h128 : fs % 128 = 0) (h100 : 100 ≤ fs / 64) :
    etchash_compute_full_data f512 pc light fs (some f) =
      some (!(buildLoop f512 light pc (some f) (fs / 64 / 100)
               (List.range (fs / 64))).2.2,
            (buildLoop f512 light pc (some f) (fs / 64 / 100)
               (List.range (fs / 64))).1,
            (buildLoop f512 light pc (some f) (fs / 64 / 100)
               (List.range (fs / 64))).2.1) := by
  unfold etchash_compute_full_data
  rw [if_neg (by omega)]
  have hq : 0 < fs / 64 / 100 := Nat.div_pos h100 (by omega)
  exact if_neg (fun h => by omega)

lemma buildLoop_report (f512 : List Nat → List Nat) (light : LightCtx)
    (pc : Nat → Nat) (q m : Nat) (f : Nat → Int) (hq : 0 < q) (hm : 0 < m)
    (hub : m ≤ 100 * q + 99) :
    (buildLoop f512 light pc (some f) q (List.range m)).2.1.length ≤ 199 ∧
    (∃ k, (buildLoop f512 light pc (some f) q (List.range m)).2.1 =
      (((List.range m).filter (fun n => n % q == 0)).map pc).take k) ∧
    ((buildLoop f512 light pc (some f) q (List.range m)).2.2 = false →
      (buildLoop f512 light pc (some f) q (List.range m)).2.1 =
        ((List.range m).filter (fun n => n % q == 0)).map pc) ∧
    (∀ p ∈ (buildLoop f512 light pc (some f) q (List.range m)).2.1.dropLast, f p = 0) ∧
    ((buildLoop f512 light pc (some f) q (List.range m)).2.2 = true ↔
      f ((buildLoop f512 light pc (some f) q (List.range m)).2.1.getLastD 0) ≠ 0) := by
  cases hab : (buildLoop f512 light pc (some f) q (List.range m)).2.2 with
  | false =>
    obtain ⟨h1, h2⟩ := buildLoop_no_abort f512 light pc q f (List.range m) hab
    have hne : (buildLoop f512 light pc (some f) q (List.range m)).2.1 ≠ [] := by
      rw [h1]; exact progressList_ne_nil pc q m hm
    refine ⟨?_, ?_, fun _ => h1, ?_, ?_⟩
    · rw [h1]; exact progressList_length_le pc q m hq hub
    · exact ⟨(((List.range m).filter (fun n => n % q == 0)).map pc).length,
        by rw [h1, List.take_length]⟩
    · intro p hp; exact h2 p ((List.dropLast_sublist _).subset hp)
    · exact iff_of_false (by simp) (not_not_intro (h2 _ (getLastD_mem _ 0 hne)))
  | true =>
    obtain ⟨h1, h2, h3⟩ := buildLoop_abort f512 light pc q f (List.range m) hab
    obtain ⟨k, hk⟩ := buildLoop_trace_take f512 light pc q f (List.range m)
    refine ⟨?_, ⟨k, hk⟩, ?_, h3, iff_of_true rfl h2⟩
    · rw [hk, List.length_take]
      have := progressList_length_le pc q m hq hub
      omega
    · intro hfalse
      exact absurd hfalse (by simp)

/-- C6 (amended): during one `etchash_compute_full_data` call with a
non-null callback and a valid `full_size` (multiple of 128 with
`full_size / 64 ≥ 100`), the callback is invoked at most 199 times (the
claimed bound of 100 is exceeded whenever `full_size / 64` is not close
to a multiple of 100): the recorded invocations are the percent
pipeline's values at the loop indices `n ≡ 0 (mod max_n / 100)` taken in
increasing order — a prefix of them, and all of them whenever the build
completes; every invocation except possibly the last returns 0, and the
build returns false exactly when the last invocation returned nonzero —
the first nonzero return aborts it immediately.  The percent argument
itself is the floating-point `ceil(progress * 100.0f)`, abstracted here
as the opaque collaborator `pc`, and no bound on its values is claimed:
the exact real value never exceeds 100, but the rounded computation can
reach 101 at valid DAG sizes. -/
theorem claim_C6_amended (f512 : List Nat → List Nat) (pc : Nat → Nat)
    (light : LightCtx) (fs : Nat) (f : Nat → Int)
    (h128 : fs % 128 = 0) (h100 : 100 ≤ fs / 64) :
    (etchash_compute_full_data f512 pc light fs (some f)).isSome = true ∧
    (fullDataTrace (etchash_compute_full_data f512 pc light fs (some f))).length ≤ 199 ∧
    (∃ k, fullDataTrace (etchash_compute_full_data f512 pc light fs (some f)) =
      (((List.range (fs / 64)).filter (fun n => n % (fs / 64 / 100) == 0)).map pc).take k) ∧
    (fullDataSuccess (etchash_compute_full_data f512 pc light fs (some f)) = true →
      fullDataTrace (etchash_compute_full_data f512 pc light fs (some f)) =
        ((List.range (fs / 64)).filter (fun n => n % (fs / 64 / 100) == 0)).map pc) ∧
    (∀ p ∈ (fullDataTrace (etchash_compute_full_data f512 pc light fs (some f))).dropLast,
      f p = 0) ∧
    (fullDataSuccess (etchash_compute_full_data f512 pc light fs (some f)) = false ↔
      f ((fullDataTrace (etchash_compute_full_data f512 pc light fs (some f))).getLastD 0)
        ≠ 0) := by
  have hq : 0 < fs / 64 / 100 := Nat.div_pos h100 (by omega)
  have hm : 0 < fs / 64 := by omega
  have hub : fs / 64 ≤ 100 * (fs / 64 / 100) + 99 := by omega
  obtain ⟨hlen, htake, hfull, hdrop, habort⟩ :=
    buildLoop_report f512 light pc (fs / 64 / 100) (fs / 64) f hq hm hub
  rw [compute_full_data_cb f512 pc light fs f h128 h100]
  simp only [fullDataTrace, fullDataSuccess, Option.getD_some, Option.isSome_some]
  refine ⟨trivial, hlen, htake, ?_, hdrop, ?_⟩
  · intro hs
    apply hfull
    rcases hx : (buildLoop f512 light pc (some f) (fs / 64 / 100)
        (List.range (fs / 64))).2.2 with _ | _
    · rfl
    · rw [hx] at hs
      exact absurd hs (by simp)
  · rw [Bool.not_eq_false']
    exact habort

lemma buildLoop_cbZero (f512 : List Nat → List Nat) (light : LightCtx)
    (pc : Nat → Nat) (q : Nat) :
    ∀ l : List Nat, (buildLoop f512 light pc (some cbZero) q l).2.2 = false ∧
      (buildLoop f512 light pc (some cbZero) q l).2.1 =
        (l.filter (fun n => n % q == 0)).map pc := by
  intro l
  induction l with
  | nil => exact ⟨rfl, rfl⟩
  | cons n rest ih =>
    by_cases hnq : (n % q == 0) = true
    · constructor <;> simp [buildLoop, hnq, cbZero, List.filter_cons, ih.1, ih.2]
    · constructor <;> simp [buildLoop, hnq, List.filter_cons, ih.1, ih.2]

set_option maxRecDepth 100000 in
/-- Counterexample for C6: at `full_size = 9600` (`max_n = 150`, progress
step `max_n / 100 = 1`) the build loop invokes the callback at every one
of its 150 iterations — more than the claimed 100.  The invocation count
does not depend on the percent values, so the opaque percent collaborator
is instantiated with the zero function.  (The percent argument of the
real program also leaves the claimed `0..=99` range on the last
invocations here — already in exact arithmetic
`ceil(100 * 149 / 150) = 100` — but that value comes from floating-point
code and is not part of this statement.) -/
theorem claim_C6_counterexample :
    (9600 : Nat) % 128 = 0 ∧ 100 ≤ (9600 : Nat) / 64 ∧
    traceLen (etchash_compute_full_data z512 (fun _ => 0) ⟨[], 64, 0⟩ 9600 (some cbZero)) =
      some 150 := by
  refine ⟨by decide, by decide, ?_⟩
  rw [compute_full_data_cb z512 (fun _ => 0) ⟨[], 64, 0⟩ 9600 cbZero (by decide) (by decide),
      (buildLoop_cbZero z512 ⟨[], 64, 0⟩ (fun _ => 0) (9600 / 64 / 100)
        (List.range (9600 / 64))).2]
  decide

/-- Witness for C6 (amended) at a concrete input: `full_size = 6400`
(`max_n = 100`) with the never-aborting callback and the zero percent
collaborator stays within 199 invocations. -/
theorem claim_C6_witness :
    (6400 : Nat) % 128 = 0 ∧ 100 ≤ (6400 : Nat) / 64 ∧
    (fullDataTrace (etchash_compute_full_data z512 (fun _ => 0) ⟨[], 0, 0⟩ 6400
      (some cbZero))).length ≤ 199 :=
  ⟨by decide, by decide,
   (claim_C6_amended z512 (fun _ => 0) ⟨[], 0, 0⟩ 6400 cbZero (by decide) (by decide)).2.1⟩
